import Mathlib

/-!
Shallow embedding of `crates/bevy_ecs/src/relationship/relationship_source_collection.rs`:
the `RelationshipSourceCollection` trait and its four implementations
(`Vec<Entity>`, `EntityHashSet`, `SmallVec<[Entity; N]>`, and the single-slot `Entity`).

Modelling choices:
- `Entity` is an opaque identifier with decidable equality; it is embedded as a
  wrapped natural number. `Entity.PLACEHOLDER` is the reserved sentinel.
- `Vec<Entity>` and `SmallVec<[Entity; N]>` are embedded as `List Entity`
  (the inline capacity `N` of `SmallVec` only affects storage, not behaviour);
  each impl gets its own definitions, mirroring the duplicated Rust impls.
- `EntityHashSet` is embedded as a duplicate-free `List Entity`; `insert`
  mirrors hash-set insertion (no-op returning `false` when the element is
  already present). Iteration order of the real hash set is unspecified; the
  embedding fixes insertion order as one admissible order.
- Stateful methods `&mut self` are embedded as functions returning the new
  state (paired with the returned `bool` where the Rust method returns one).
- Iterators are embedded as the `List Entity` of the elements they yield.
-/

/-- `Entity`: an opaque, stable identifier, comparable for equality. -/
structure Entity where
  id : Nat
deriving DecidableEq

/-- `Entity::PLACEHOLDER`: the reserved sentinel denoting "no entity". -/
def Entity.PLACEHOLDER : Entity := ⟨4294967295⟩

/-- Default `RelationshipSourceCollection::extend_from_iter` (lines 68-74 of the
source): repeated `add`, one call per entity yielded by the input, in order.
Generic over the collection state type and the variant's `add`. -/
def defaultExtendFromIter {C : Type} (addFn : C → Entity → C × Bool)
    (c : C) (entities : List Entity) : C :=
  entities.foldl (fun acc e => (addFn acc e).1) c

namespace Vec

/-- `Iterator::position` specialised to the predicate `|e| *e == entity` used by
`Vec<Entity>::remove`: index of the first occurrence of `e`, if any. -/
def position : List Entity → Entity → Option Nat
  | [], _ => none
  | x :: xs, e => if x = e then some 0 else (position xs e).map (· + 1)

/-- `Vec<Entity>::add`: `Vec::push(self, entity); true`. -/
def add (v : List Entity) (e : Entity) : List Entity × Bool :=
  (v ++ [e], true)

/-- `Vec<Entity>::remove`: find the position of the first occurrence of
`entity`; if found, `Vec::remove` that index and return `true`, else `false`. -/
def remove (v : List Entity) (e : Entity) : List Entity × Bool :=
  match position v e with
  | some i => (v.eraseIdx i, true)
  | none => (v, false)

/-- `Vec<Entity>::iter`: yields the elements in order. -/
def iter (v : List Entity) : List Entity := v

/-- `Vec<Entity>::len`. -/
def len (v : List Entity) : Nat := v.length

/-- `Vec<Entity>::extend_from_iter` (override): `self.extend(entities)`. -/
def extend_from_iter (v : List Entity) (entities : List Entity) : List Entity :=
  v ++ entities

end Vec

namespace SmallVec

/-- `Iterator::position` for the `SmallVec` impl (textually the same code as
the `Vec` impl in the source). -/
def position : List Entity → Entity → Option Nat
  | [], _ => none
  | x :: xs, e => if x = e then some 0 else (position xs e).map (· + 1)

/-- `SmallVec<[Entity; N]>::add`: `SmallVec::push(self, entity); true`. -/
def add (v : List Entity) (e : Entity) : List Entity × Bool :=
  (v ++ [e], true)

/-- `SmallVec<[Entity; N]>::remove`: position of first occurrence, then
`SmallVec::remove` at that index. -/
def remove (v : List Entity) (e : Entity) : List Entity × Bool :=
  match position v e with
  | some i => (v.eraseIdx i, true)
  | none => (v, false)

/-- `SmallVec<[Entity; N]>::iter`: yields the elements in order. -/
def iter (v : List Entity) : List Entity := v

/-- `SmallVec<[Entity; N]>::len`. -/
def len (v : List Entity) : Nat := v.length

/-- `SmallVec<[Entity; N]>::extend_from_iter` (override): `self.extend(entities)`. -/
def extend_from_iter (v : List Entity) (entities : List Entity) : List Entity :=
  v ++ entities

end SmallVec

namespace EntityHashSet

/-- `EntityHashSet::insert` (hash-set insertion): adds `e` only when absent and
returns whether it was newly inserted. -/
def insert (s : List Entity) (e : Entity) : List Entity × Bool :=
  if e ∈ s then (s, false) else (s ++ [e], true)

/-- `EntityHashSet::add`: `self.insert(entity)`. -/
def add (s : List Entity) (e : Entity) : List Entity × Bool :=
  insert s e

/-- `EntityHashSet::remove`: `self.0.remove(&entity)`: removes `entity` if
present and returns whether it was present. -/
def remove (s : List Entity) (e : Entity) : List Entity × Bool :=
  if e ∈ s then (s.erase e, true) else (s, false)

/-- `EntityHashSet::iter`: yields the members (in the embedding's order). -/
def iter (s : List Entity) : List Entity := s

/-- `EntityHashSet::len`. -/
def len (s : List Entity) : Nat := s.length

/-- `EntityHashSet::extend_from_iter` (override): `self.extend(entities)`,
i.e. hash-set insertion of each yielded entity in order. -/
def extend_from_iter (s : List Entity) (entities : List Entity) : List Entity :=
  entities.foldl (fun acc e => (insert acc e).1) s

end EntityHashSet

namespace Entity

/-- Single-slot `Entity::add`: `*self = entity; true` (unconditional overwrite). -/
def add (_self : Entity) (entity : Entity) : Entity × Bool :=
  (entity, true)

/-- Single-slot `Entity::remove`: if `*self == entity`, reset the slot to
`PLACEHOLDER` and return `true`, else leave it and return `false`. -/
def remove (self : Entity) (entity : Entity) : Entity × Bool :=
  if self = entity then (Entity.PLACEHOLDER, true) else (self, false)

/-- Single-slot `Entity::iter`: `core::iter::once(*self)` — always yields
exactly one element, the raw slot value (even when the slot is empty). -/
def iter (self : Entity) : List Entity := [self]

/-- Single-slot `Entity::len`: `0` when the slot holds `PLACEHOLDER`, else `1`. -/
def len (self : Entity) : Nat :=
  if self = Entity.PLACEHOLDER then 0 else 1

/-- Single-slot `Entity::extend_from_iter`: if the input yields at least one
entity, overwrite the slot with the last one; otherwise leave the slot alone. -/
def extend_from_iter (self : Entity) (entities : List Entity) : Entity :=
  match entities.getLast? with
  | some entity => entity
  | none => self

/-- The meaningful members of the single-slot collection, per the spec's data
model and the `len` implementation: none when the slot holds the placeholder
sentinel, exactly the occupant otherwise. -/
def members (self : Entity) : List Entity :=
  if self = Entity.PLACEHOLDER then [] else [self]

end Entity

/-! Helper lemmas about `Vec.remove` (and, via a bridge, `SmallVec.remove`). -/

theorem vec_remove_nil (e : Entity) : Vec.remove [] e = ([], false) := rfl

theorem vec_remove_cons (x : Entity) (xs : List Entity) (e : Entity) :
    Vec.remove (x :: xs) e =
      if x = e then (xs, true)
      else (x :: (Vec.remove xs e).1, (Vec.remove xs e).2) := by
  by_cases hx : x = e
  · simp [Vec.remove, Vec.position, hx]
  · cases hp : Vec.position xs e with
    | none => simp [Vec.remove, Vec.position, hx, hp]
    | some i => simp [Vec.remove, Vec.position, hx, hp]

theorem vec_remove_bool (v : List Entity) (e : Entity) :
    (Vec.remove v e).2 = true ↔ e ∈ v := by
  induction v with
  | nil => simp [vec_remove_nil]
  | cons x xs ih =>
    rw [vec_remove_cons]
    by_cases hx : x = e
    · simp [hx]
    · simp only [if_neg hx, List.mem_cons, ih]
      constructor
      · exact fun h => Or.inr h
      · rintro (h | h)
        · exact absurd h.symm hx
        · exact h

theorem vec_remove_of_mem (v : List Entity) (e : Entity) (h : e ∈ v) :
    ∃ l₁ l₂, v = l₁ ++ e :: l₂ ∧ e ∉ l₁ ∧ (Vec.remove v e).1 = l₁ ++ l₂ := by
  induction v with
  | nil => cases h
  | cons x xs ih =>
    by_cases hx : x = e
    · refine ⟨[], xs, by rw [hx]; rfl, by simp, ?_⟩
      rw [vec_remove_cons, if_pos hx]
      rfl
    · have he : e ∈ xs := by
        rcases List.mem_cons.mp h with h1 | h2
        · exact absurd h1.symm hx
        · exact h2
      obtain ⟨l₁, l₂, hv, hnl, hres⟩ := ih he
      refine ⟨x :: l₁, l₂, by rw [hv]; rfl, ?_, ?_⟩
      · intro hmem
        rcases List.mem_cons.mp hmem with h1 | h2
        · exact hx h1.symm
        · exact hnl h2
      · rw [vec_remove_cons, if_neg hx, hres]
        rfl

theorem vec_remove_false (v : List Entity) (e : Entity)
    (h : (Vec.remove v e).2 = false) : (Vec.remove v e).1 = v := by
  cases hp : Vec.position v e with
  | none => simp [Vec.remove, hp]
  | some i => simp [Vec.remove, hp] at h

theorem smallvec_position_eq (v : List Entity) (e : Entity) :
    SmallVec.position v e = Vec.position v e := by
  induction v with
  | nil => rfl
  | cons x xs ih => simp [SmallVec.position, Vec.position, ih]

theorem smallvec_remove_eq (v : List Entity) (e : Entity) :
    SmallVec.remove v e = Vec.remove v e := by
  unfold SmallVec.remove Vec.remove
  rw [smallvec_position_eq]

/-! Helper lemmas for `extend_from_iter` against the trait's default. -/

theorem default_extend_vec_add (v entities : List Entity) :
    defaultExtendFromIter Vec.add v entities = v ++ entities := by
  induction entities generalizing v with
  | nil => simp [defaultExtendFromIter]
  | cons x xs ih =>
    show defaultExtendFromIter Vec.add (v ++ [x]) xs = v ++ x :: xs
    rw [ih]
    simp

theorem default_extend_smallvec_add (v entities : List Entity) :
    defaultExtendFromIter SmallVec.add v entities = v ++ entities := by
  induction entities generalizing v with
  | nil => simp [defaultExtendFromIter]
  | cons x xs ih =>
    show defaultExtendFromIter SmallVec.add (v ++ [x]) xs = v ++ x :: xs
    rw [ih]
    simp

/-! Claim theorems. -/

/-- Claim C1, evaluated at the failing input: on the single-slot variant in
the empty state (slot = `PLACEHOLDER`, so `len = 0` and there are no current
members), `iter` yields one element — the placeholder sentinel — instead of
the empty sequence of exactly `len` current members that the claim (and the
trait's own documentation of `iter`) requires. -/
theorem entity_iter_empty_slot_yields_placeholder :
    Entity.iter Entity.PLACEHOLDER = [Entity.PLACEHOLDER] ∧
    Entity.len Entity.PLACEHOLDER = 0 ∧
    Entity.members Entity.PLACEHOLDER = [] ∧
    (Entity.iter Entity.PLACEHOLDER).length ≠ Entity.len Entity.PLACEHOLDER :=
  ⟨rfl, by decide, by decide, by decide⟩

/-- Claim C2: for the single-slot variant, `add e` always returns `true` and
overwrites any previous occupant: for every prior slot state, the new slot
state is exactly `e` (last write wins). -/
theorem entity_add_last_write_wins (self entity : Entity) :
    Entity.add self entity = (entity, true) := rfl

/-- Claim C3: for the single-slot variant, `len` is always 0 or 1; it is 0
exactly when the slot holds the placeholder sentinel (which is never a
meaningful member), and 1 for any other occupant. -/
theorem entity_len_invariant (self : Entity) :
    (Entity.len self = 0 ∨ Entity.len self = 1) ∧
    (Entity.len self = 0 ↔ self = Entity.PLACEHOLDER) ∧
    (self ≠ Entity.PLACEHOLDER → Entity.len self = 1) := by
  by_cases h : self = Entity.PLACEHOLDER <;> simp [Entity.len, h]

theorem entity_len_invariant_witness :
    Entity.len ⟨7⟩ = 1 ∧ Entity.len Entity.PLACEHOLDER = 0 :=
  ⟨(entity_len_invariant ⟨7⟩).2.2 (by decide),
   (entity_len_invariant Entity.PLACEHOLDER).2.1.mpr rfl⟩

/-- Claim C4 counterexample: for the single-slot variant in the empty state,
`remove PLACEHOLDER` returns `true` although the collection contains no
members (`len = 0`), so "returns true iff the collection contained e" fails
as stated. -/
theorem remove_contained_iff_cex :
    ¬ (((Entity.remove Entity.PLACEHOLDER Entity.PLACEHOLDER).2 = true) ↔
        Entity.PLACEHOLDER ∈ Entity.members Entity.PLACEHOLDER) := by
  decide

/-- Claim C4 (amended): for `Vec`, `SmallVec` and `EntityHashSet`, `remove e`
returns `true` iff the collection contained `e`, and removes exactly one
occurrence of `e` — the first match of a linear scan for the ordered
variants, preserving the relative order of the remaining elements; for the
single-slot variant the containment test is the raw slot comparison
`*self == e`, so `remove e` returns `true` iff the slot equals `e` — in
particular `remove PLACEHOLDER` on an empty slot also returns `true` — and a
successful removal resets the slot to the placeholder. -/
theorem remove_spec_amended (v sv hs : List Entity) (s e : Entity) :
    ((Vec.remove v e).2 = true ↔ e ∈ v) ∧
    (e ∈ v → ∃ l₁ l₂, v = l₁ ++ e :: l₂ ∧ e ∉ l₁ ∧ (Vec.remove v e).1 = l₁ ++ l₂) ∧
    ((SmallVec.remove sv e).2 = true ↔ e ∈ sv) ∧
    (e ∈ sv → ∃ l₁ l₂, sv = l₁ ++ e :: l₂ ∧ e ∉ l₁ ∧ (SmallVec.remove sv e).1 = l₁ ++ l₂) ∧
    ((EntityHashSet.remove hs e).2 = true ↔ e ∈ hs) ∧
    (e ∈ hs → (EntityHashSet.remove hs e).1 = hs.erase e ∧
      (EntityHashSet.remove hs e).1.length + 1 = hs.length) ∧
    ((Entity.remove s e).2 = true ↔ s = e) ∧
    (s = e → (Entity.remove s e).1 = Entity.PLACEHOLDER) := by
  refine ⟨vec_remove_bool v e, vec_remove_of_mem v e, ?_, ?_, ?_, ?_, ?_, ?_⟩
  · rw [smallvec_remove_eq]
    exact vec_remove_bool sv e
  · intro he
    rw [smallvec_remove_eq]
    exact vec_remove_of_mem sv e he
  · by_cases he : e ∈ hs <;> simp [EntityHashSet.remove, he]
  · intro he
    refine ⟨by simp [EntityHashSet.remove, he], ?_⟩
    simp only [EntityHashSet.remove, if_pos he]
    rw [List.length_erase_of_mem he]
    exact Nat.sub_add_cancel (List.length_pos_of_mem he)
  · by_cases hse : s = e <;> simp [Entity.remove, hse]
  · intro hse
    simp [Entity.remove, hse]

theorem remove_spec_amended_witness :
    (Vec.remove [⟨1⟩, ⟨2⟩] ⟨2⟩).2 = true ∧
    (SmallVec.remove [⟨2⟩] ⟨2⟩).2 = true ∧
    (EntityHashSet.remove [⟨2⟩] ⟨2⟩).1.length + 1 = 1 ∧
    (Entity.remove ⟨2⟩ ⟨2⟩).1 = Entity.PLACEHOLDER := by
  have h := remove_spec_amended [⟨1⟩, ⟨2⟩] [⟨2⟩] [⟨2⟩] ⟨2⟩ ⟨2⟩
  exact ⟨h.1.mpr (by decide), h.2.2.1.mpr (by decide),
    (h.2.2.2.2.2.1 (by decide)).2, h.2.2.2.2.2.2.2 rfl⟩

/-- Claim C5: for `EntityHashSet`, `add e` returns `true` only if `e` was not
already present; the second of two consecutive `add e` calls leaves the
collection unchanged (returning `false`), so adding the same entity twice
to a collection not containing it increases `len` by exactly 1, not 2. -/
theorem hash_set_add_unique (s : List Entity) (e : Entity) :
    ((EntityHashSet.add s e).2 = true → e ∉ s) ∧
    (EntityHashSet.add (EntityHashSet.add s e).1 e = ((EntityHashSet.add s e).1, false)) ∧
    (e ∉ s →
      EntityHashSet.len (EntityHashSet.add (EntityHashSet.add s e).1 e).1 =
        EntityHashSet.len s + 1) := by
  by_cases he : e ∈ s
  · simp [EntityHashSet.add, EntityHashSet.insert, he]
  · simp [EntityHashSet.add, EntityHashSet.insert, he, EntityHashSet.len]

theorem hash_set_add_unique_witness :
    EntityHashSet.len (EntityHashSet.add (EntityHashSet.add [] ⟨5⟩).1 ⟨5⟩).1 = 1 := by
  simpa using (hash_set_add_unique [] ⟨5⟩).2.2 (by decide)

/-- Claim C6: for the ordered variants `Vec` and `SmallVec`, `add e` always
returns `true` and appends `e` even when already present (duplicates
allowed): after `add e`, `len` has increased by exactly 1. -/
theorem ordered_add_always_appends (v sv : List Entity) (e : Entity) :
    Vec.add v e = (v ++ [e], true) ∧
    Vec.len (Vec.add v e).1 = Vec.len v + 1 ∧
    SmallVec.add sv e = (sv ++ [e], true) ∧
    SmallVec.len (SmallVec.add sv e).1 = SmallVec.len sv + 1 := by
  simp [Vec.add, Vec.len, SmallVec.add, SmallVec.len]

/-- Claim C7: for the single-slot variant, `extend_from_iter` with a
non-empty input sequence leaves the slot holding exactly the last entity
yielded, regardless of the prior occupant and of the input's length. -/
theorem entity_extend_from_iter_last (self : Entity) (entities : List Entity)
    (e : Entity) (h : entities.getLast? = some e) :
    Entity.extend_from_iter self entities = e := by
  simp [Entity.extend_from_iter, h]

theorem entity_extend_from_iter_last_witness :
    Entity.extend_from_iter ⟨9⟩ [⟨1⟩, ⟨2⟩, ⟨3⟩] = ⟨3⟩ :=
  entity_extend_from_iter_last ⟨9⟩ [⟨1⟩, ⟨2⟩, ⟨3⟩] ⟨3⟩ rfl

/-- Claim C8: for `Vec`, `SmallVec` and `EntityHashSet`, the overridden
`extend_from_iter` produces exactly the same final state as the trait's
default implementation (one `add` per yielded entity, in order), for every
starting state and every finite input sequence. -/
theorem extend_from_iter_matches_default (v sv hs entities : List Entity) :
    Vec.extend_from_iter v entities = defaultExtendFromIter Vec.add v entities ∧
    SmallVec.extend_from_iter sv entities = defaultExtendFromIter SmallVec.add sv entities ∧
    EntityHashSet.extend_from_iter hs entities =
      defaultExtendFromIter EntityHashSet.add hs entities := by
  refine ⟨?_, ?_, ?_⟩
  · rw [default_extend_vec_add]
    rfl
  · rw [default_extend_smallvec_add]
    rfl
  · rfl

/-- Claim C9: for every collection variant, when `remove e` returns `false`
the collection is left completely unchanged (same members, same order, same
length). -/
theorem remove_false_leaves_unchanged (v sv hs : List Entity) (s e : Entity)
    (hv : (Vec.remove v e).2 = false)
    (hsv : (SmallVec.remove sv e).2 = false)
    (hhs : (EntityHashSet.remove hs e).2 = false)
    (hsl : (Entity.remove s e).2 = false) :
    (Vec.remove v e).1 = v ∧ (SmallVec.remove sv e).1 = sv ∧
    (EntityHashSet.remove hs e).1 = hs ∧ (Entity.remove s e).1 = s := by
  refine ⟨vec_remove_false v e hv, ?_, ?_, ?_⟩
  · rw [smallvec_remove_eq] at hsv ⊢
    exact vec_remove_false sv e hsv
  · by_cases he : e ∈ hs
    · simp [EntityHashSet.remove, he] at hhs
    · simp [EntityHashSet.remove, he]
  · by_cases hse : s = e
    · simp [Entity.remove, hse] at hsl
    · simp [Entity.remove, hse]

theorem remove_false_leaves_unchanged_witness :
    (Vec.remove [⟨1⟩] ⟨2⟩).1 = [⟨1⟩] ∧ (Entity.remove ⟨1⟩ ⟨2⟩).1 = ⟨1⟩ := by
  have h := remove_false_leaves_unchanged [⟨1⟩] [⟨1⟩] [⟨1⟩] ⟨1⟩ ⟨2⟩
    (by decide) (by decide) (by decide) (by decide)
  exact ⟨h.1, h.2.2.2⟩

/-- Claim C10: for the single-slot variant, `extend_from_iter` with an input
sequence that yields no entities leaves the slot unchanged: an existing
occupant is kept rather than cleared. -/
theorem entity_extend_from_iter_empty (self : Entity) :
    Entity.extend_from_iter self [] = self := rfl
